import Mathlib

/-! cameraStreaming.cpp: the frame hand-off and the multipart response

A shallow embedding of `src/cameraStreaming.cpp`.

* `Mat` stands for `cv::Mat`, `Globals` for the file-level variables
  (`frame`, and the text sent to `std::cerr`).
* The camera, the JPEG codec and the civetweb connection are external: the
  camera is a sequence of `ReadResult`s, the codec a function
  `Mat → List Char`, the connection a value of `mg_connection` on which
  `mg_write` and `mg_printf` act.
* A `while (true)` loop is run over a finite list of inputs with `whileTrue`;
  its body says after each iteration whether the loop goes on (`Flow.next`)
  or is left (`Flow.brk`).
* Bytes are `Char`s, so that the string literals of the source can be written
  as they are.
-/

namespace CameraStreaming

/-! ## Data -/

/-- A `cv::Mat`: the pixel data. A default-constructed matrix has no element. -/
structure Mat where
  data : List Nat
deriving DecidableEq

/-- `cv::Mat::empty()`. -/
def Mat.empty (m : Mat) : Bool := m.data.isEmpty

/-- `cv::Mat::clone()`: a deep copy. -/
def Mat.clone (m : Mat) : Mat := { data := m.data }

/-- The file-level state: `cv::Mat frame` (line 11) and what was sent to `std::cerr`. -/
structure Globals where
  frame : Mat
  cerr : List String
deriving DecidableEq

/-- The state at program start: `frame` is default-constructed, nothing logged. -/
def Globals.init : Globals := { frame := { data := [] }, cerr := [] }

/-- What `camera.read(temp_frame)` gives: the returned flag and the content of `temp_frame`. -/
structure ReadResult where
  ok : Bool
  image : Mat
deriving DecidableEq

/-- The contract of `cv::VideoCapture::read`: it returns true only for a non-empty image. -/
def ReadResult.wellFormed (r : ReadResult) : Bool := !r.ok || !r.image.empty

/-- A civetweb connection: whether the peer has gone, and the bytes delivered so far. -/
structure mg_connection where
  closed : Bool
  sent : List Char
deriving DecidableEq

/-- `mg_write(conn, buf, len)`: on an open connection the bytes are delivered and the
count is returned; on a closed one nothing is delivered and the result is `-1`. -/
def mg_write (conn : mg_connection) (buf : List Char) : Int × mg_connection :=
  if conn.closed then (-1, conn)
  else ((buf.length : Int), { conn with sent := conn.sent ++ buf })

/-- `mg_printf(conn, fmt, ...)` with the formatted text already built. -/
def mg_printf (conn : mg_connection) (text : List Char) : Int × mg_connection :=
  mg_write conn text

/-- The conversion `%zu` of `printf`: the decimal digits of a `size_t`. -/
def fmt_zu (n : Nat) : List Char := Nat.toDigits 10 n

/-- How the body of a `while (true)` loop ends: the next iteration starts, or the loop is left. -/
inductive Flow where
  | next
  | brk
deriving DecidableEq

/-- Runs a `while (true)` loop over the given inputs, one per iteration. The result says
whether the loop was left (`true`) or is still running when the inputs are used up. -/
def whileTrue {ι σ : Type} (body : ι → σ → Flow × σ) : List ι → σ → Bool × σ
  | [], s => (false, s)
  | i :: rest, s =>
    match body i s with
    | (Flow.next, t) => whileTrue body rest t
    | (Flow.brk, t) => (true, t)

/-! ## The shared frame cell (lines 19-22 and 40-45) -/

/-- The locked section of `captureFrames`: `frame = temp_frame.clone()`. -/
def publish (temp_frame : Mat) (g : Globals) : Globals :=
  { g with frame := temp_frame.clone }

/-- The locked section of `videoStreamHandler`: nothing when `frame.empty()`,
otherwise `frame.clone()`. -/
def readCurrent (g : Globals) : Option Mat :=
  if g.frame.empty then none else some g.frame.clone

/-! ## captureFrames (lines 17-27) -/

/-- One iteration of the loop of `captureFrames`. -/
def captureFramesIter (r : ReadResult) (g : Globals) : Flow × Globals :=
  if r.ok then (Flow.next, publish r.image g)
  else (Flow.next, { g with cerr := g.cerr ++ ["Failed to capture frame"] })

/-- The function `captureFrames` over the given camera reads: `true` when it returned. -/
def captureFrames (reads : List ReadResult) (g : Globals) : Bool × Globals :=
  whileTrue captureFramesIter reads g

/-! ## videoStreamHandler (lines 30-62) -/

/-- The state of one call of `videoStreamHandler`: its connection and the
durations (in ms) of the `sleep_for` calls it made. -/
structure Session where
  conn : mg_connection
  sleeps : List Nat
deriving DecidableEq

/-- The text of the first `mg_printf` (lines 32-35). -/
def responseHeader : List Char :=
  "HTTP/1.1 200 OK\r\nContent-Type: multipart/x-mixed-replace; boundary=frame\r\n\r\n".toList

/-- The text of the `mg_printf` of lines 52-56 for a buffer of `size` bytes. -/
def partHeader (size : Nat) : List Char :=
  "--frame\r\nContent-Type: image/jpeg\r\nContent-Length: ".toList ++ fmt_zu size
    ++ "\r\n\r\n".toList

/-- One iteration of the loop of `videoStreamHandler` (lines 38-58); `g` is the
file-level state at the time of the locked section. -/
def videoStreamHandlerIter (imencode : Mat → List Char) (g : Globals) (s : Session) :
    Flow × Globals × Session :=
  let s1 : Session := { s with sleeps := s.sleeps ++ [50] }
  match readCurrent g with
  | none => (Flow.next, g, s1)
  | some temp_frame =>
    let buffer := imencode temp_frame
    let c1 := (mg_printf s1.conn (partHeader buffer.length)).2
    let c2 := (mg_write c1 buffer).2
    let c3 := (mg_printf c2 "\r\n".toList).2
    (Flow.next, g, { s1 with conn := c3 })

/-- The function `videoStreamHandler`: the header, then the loop, one iteration per
element of `cells` (the file-level state seen by that iteration). The result is the
returned value, if the function returned. -/
def videoStreamHandler (imencode : Mat → List Char) (cells : List Globals)
    (conn : mg_connection) : Option Int × Session :=
  let c0 := (mg_printf conn responseHeader).2
  let r := whileTrue (fun g s => ((videoStreamHandlerIter imencode g s).1,
    (videoStreamHandlerIter imencode g s).2.2)) cells { conn := c0, sleeps := [] }
  (if r.1 then some 1 else none, r.2)

/-! ## A length-prefixed multipart reader

The reader is not part of the program: it is the consumer against which the
sections written by `videoStreamHandler` are checked. It finds the boundary
line, reads header lines up to the blank line, takes as many body bytes as the
`Content-Length` header says, and wants a CRLF after them. -/

/-- Removes `p` from the front of `input`, if it is there. -/
def expect : List Char → List Char → Option (List Char)
  | [], input => some input
  | _ :: _, [] => none
  | c :: p, d :: input => if c = d then expect p input else none

/-- Reads up to the first CRLF: the line before it and what follows it. -/
def readLine : List Char → Option (List Char × List Char)
  | [] => none
  | c :: rest =>
    match expect "\r\n".toList (c :: rest) with
    | some after => some ([], after)
    | none => (readLine rest).map (fun p => (c :: p.1, p.2))

/-- Reads header lines up to the blank line that ends them. -/
def readHeaders : Nat → List Char → Option (List (List Char) × List Char)
  | 0, _ => none
  | fuel + 1, input =>
    match readLine input with
    | none => none
    | some ([], rest) => some ([], rest)
    | some (line, rest) => (readHeaders fuel rest).map (fun p => (line :: p.1, p.2))

/-- The value of a run of digits on top of the value `acc` of the digits before it. -/
def digitsValue (acc : Nat) (ds : List Char) : Nat :=
  ds.foldl (fun a c => 10 * a + (c.toNat - 48)) acc

/-- The number written by a non-empty run of decimal digits. -/
def decimalValue (ds : List Char) : Option Nat :=
  if ds.isEmpty || !ds.all Char.isDigit then none
  else some (digitsValue 0 ds)

/-- The value of the `Content-Length` header among the header lines. -/
def contentLength (headers : List (List Char)) : Option Nat :=
  (headers.findSome? (expect "Content-Length: ".toList)).bind decimalValue

/-- Reads one section: its body and the input after its trailing CRLF. -/
def readPart (boundary : List Char) (input : List Char) : Option (List Char × List Char) :=
  match expect ("--".toList ++ boundary ++ "\r\n".toList) input with
  | none => none
  | some r0 =>
    match readHeaders r0.length r0 with
    | none => none
    | some (headers, r1) =>
      match contentLength headers with
      | none => none
      | some n =>
        if r1.length < n then none
        else (expect "\r\n".toList (r1.drop n)).map (fun r2 => (r1.take n, r2))

/-- Reads sections until the input is used up. -/
def readParts (boundary : List Char) : Nat → List Char → Option (List (List Char))
  | _, [] => some []
  | 0, _ :: _ => none
  | fuel + 1, c :: input =>
    match readPart boundary (c :: input) with
    | none => none
    | some (body, rest) => (readParts boundary fuel rest).map (fun bs => body :: bs)

/-- The reader: the bodies of all sections of `input`, or nothing when `input` is malformed. -/
def multipartReader (boundary : List Char) (input : List Char) : Option (List (List Char)) :=
  readParts boundary input.length input

/-- The section the specification asks for, for the encoded bytes `body`. -/
def specSection (boundary : List Char) (body : List Char) : List Char :=
  "--".toList ++ boundary ++ "\r\n".toList
    ++ "Content-Type: image/jpeg".toList ++ "\r\n".toList
    ++ "Content-Length: ".toList ++ fmt_zu body.length ++ "\r\n".toList
    ++ "\r\n".toList
    ++ body
    ++ "\r\n".toList

/-! ## The cell under a history of publishes and reads -/

/-- An operation on the shared cell, each one a whole locked section. -/
inductive CellOp where
  | publish (p : Mat)
  | read
deriving DecidableEq

/-- Runs the operations in order; gives the final state and what each read returned. -/
def runCellOps : List CellOp → Globals → Globals × List (Option Mat)
  | [], g => (g, [])
  | CellOp.publish p :: ops, g => runCellOps ops (publish p g)
  | CellOp.read :: ops, g => ((runCellOps ops g).1, readCurrent g :: (runCellOps ops g).2)

/-- The number of reads in a history. -/
def countReads : List CellOp → Nat
  | [] => 0
  | CellOp.publish _ :: ops => countReads ops
  | CellOp.read :: ops => countReads ops + 1

/-- The frame of the latest publish of a history, if it has a publish. -/
def lastPublished : List CellOp → Option Mat
  | [] => none
  | CellOp.publish p :: ops => some ((lastPublished ops).getD p)
  | CellOp.read :: ops => lastPublished ops

/-- Whether every published frame of a history is a frame (not an empty matrix). -/
def publishesFrames : List CellOp → Bool
  | [] => true
  | CellOp.publish p :: ops => !p.empty && publishesFrames ops
  | CellOp.read :: ops => publishesFrames ops

/-! ## main (lines 64-93) -/

/-- What `main` starts, or waits for, once the camera is known to be open. -/
inductive MainStep where
  | startThread (fn : String)
  | mg_start (options : List String)
  | mg_set_request_handler (uri : String) (handler : String)
  | cout (text : String)
  | cin_get
  | mg_stop
  | join
deriving DecidableEq

/-- The steps of lines 72-89, in program order. -/
def mainSteps : List MainStep :=
  [MainStep.startThread "captureFrames",
   MainStep.mg_start ["listening_ports", "5000"],
   MainStep.mg_set_request_handler "/video_feed" "videoStreamHandler",
   MainStep.cout "Server running at http://<your-ip>:5000/video_feed",
   MainStep.cin_get,
   MainStep.mg_stop]

/-- The function `main`: `isOpened` is what `camera.isOpened()` returns, `reads` are the
camera reads of the capture thread. The result is the returned status (if `main`
returned), the steps completed, and the file-level state. The operator is taken to
press enter and `mg_stop` to come back; `captureThread.join()` completes only when
`captureFrames` has returned. -/
def main (isOpened : Bool) (reads : List ReadResult) (g : Globals) :
    Option Int × List MainStep × Globals :=
  if !isOpened then
    (some (-1), [], { g with cerr := g.cerr ++ ["Error: Cannot access the camera."] })
  else
    let t := captureFrames reads g
    if t.1 then (some 0, mainSteps ++ [MainStep.join], t.2)
    else (none, mainSteps, t.2)

/-! ## The threads, statement by statement

The capture thread and the handler threads as program counters over the
statements of the source, with `frame_mutex` and a `frame` whose assignment
takes two steps, so that a frame that is being written can be seen as such. -/

/-- Where the capture thread stands in `captureFrames`. -/
inductive ProducerPc where
  /-- line 20: `camera.read(temp_frame)` -/
  | read
  /-- line 21: the `lock_guard` is constructed, waiting for `frame_mutex` -/
  | lock
  /-- line 22: `frame = temp_frame.clone()`, first half -/
  | assignBegin
  /-- line 22: `frame = temp_frame.clone()`, second half -/
  | assignEnd
  /-- line 23: the scope of the `lock_guard` ends -/
  | unlock
  /-- line 24: the failure is written to `std::cerr` -/
  | log
deriving DecidableEq

/-- Where a handler thread stands in `videoStreamHandler`. -/
inductive HandlerPc where
  /-- lines 32-35: the response header is written -/
  | header
  /-- line 38: `sleep_for` -/
  | sleep
  /-- line 42: the `lock_guard` is constructed, waiting for `frame_mutex` -/
  | lock
  /-- line 43: `frame.empty()` is tested -/
  | test
  /-- line 43: `continue`, which leaves the scope of the `lock_guard` -/
  | skip
  /-- line 44: `temp_frame = frame.clone()` -/
  | copy
  /-- line 45: the scope of the `lock_guard` ends -/
  | unlock
  /-- line 49: `cv::imencode` -/
  | encode
  /-- lines 52-58: the section is written -/
  | write
deriving DecidableEq

/-- The statements of `captureFrames` that touch `frame` (line 22). -/
def ProducerPc.accessesFrame : ProducerPc → Bool
  | ProducerPc.assignBegin => true
  | ProducerPc.assignEnd => true
  | _ => false

/-- The statements of `videoStreamHandler` that touch `frame` (lines 43 and 44). -/
def HandlerPc.accessesFrame : HandlerPc → Bool
  | HandlerPc.test => true
  | HandlerPc.copy => true
  | _ => false

/-- The statements of `captureFrames` inside the scope of its `lock_guard` (lines 21-23). -/
def ProducerPc.holdsMutex : ProducerPc → Bool
  | ProducerPc.assignBegin => true
  | ProducerPc.assignEnd => true
  | ProducerPc.unlock => true
  | _ => false

/-- The statements of `videoStreamHandler` inside the scope of its `lock_guard`
(lines 42-45). -/
def HandlerPc.holdsMutex : HandlerPc → Bool
  | HandlerPc.test => true
  | HandlerPc.skip => true
  | HandlerPc.copy => true
  | HandlerPc.unlock => true
  | _ => false

/-- A handler thread: its program counter and its `temp_frame`. -/
structure HandlerThread where
  pc : HandlerPc
  temp_frame : Mat
deriving DecidableEq

/-- The threads and what they share. The capture thread has id `0`, the handler
thread at index `i` has id `i + 1`. -/
structure Sys where
  frame_mutex : Option Nat
  frame : Mat
  writing : Bool
  producerPc : ProducerPc
  producerTemp : Mat
  handlers : List HandlerThread
deriving DecidableEq

/-- The threads at program start: the capture thread alone, about to read. -/
def Sys.init : Sys :=
  { frame_mutex := none, frame := { data := [] }, writing := false,
    producerPc := ProducerPc.read, producerTemp := { data := [] }, handlers := [] }

/-- A frame caught in the middle of its assignment: part new, part old. -/
def tornFrame (new old : Mat) : Mat :=
  { data := new.data.take (new.data.length / 2) ++ old.data.drop (new.data.length / 2) }

/-- What the scheduler lets happen next. -/
inductive Action where
  | connect
  | producer (r : ReadResult)
  | handler (i : Nat)
deriving DecidableEq

/-- One statement of the capture thread; `r` is what `camera.read` gives if that is
the statement. A thread waiting for the mutex stays where it is. -/
def producerStep (r : ReadResult) (s : Sys) : Sys :=
  match s.producerPc with
  | ProducerPc.read =>
    if r.ok then { s with producerPc := ProducerPc.lock, producerTemp := r.image }
    else { s with producerPc := ProducerPc.log, producerTemp := r.image }
  | ProducerPc.lock =>
    match s.frame_mutex with
    | none => { s with frame_mutex := some 0, producerPc := ProducerPc.assignBegin }
    | some _ => s
  | ProducerPc.assignBegin =>
    { s with writing := true, frame := tornFrame s.producerTemp s.frame,
             producerPc := ProducerPc.assignEnd }
  | ProducerPc.assignEnd =>
    { s with writing := false, frame := s.producerTemp.clone,
             producerPc := ProducerPc.unlock }
  | ProducerPc.unlock => { s with frame_mutex := none, producerPc := ProducerPc.read }
  | ProducerPc.log => { s with producerPc := ProducerPc.read }

/-- One statement of the handler thread `h` with id `i + 1`: the shared part of the
state and the thread afterwards. -/
def handlerStep (i : Nat) (h : HandlerThread) (s : Sys) : Sys × HandlerThread :=
  match h.pc with
  | HandlerPc.header => (s, { h with pc := HandlerPc.sleep })
  | HandlerPc.sleep => (s, { pc := HandlerPc.lock, temp_frame := { data := [] } })
  | HandlerPc.lock =>
    match s.frame_mutex with
    | none => ({ s with frame_mutex := some (i + 1) }, { h with pc := HandlerPc.test })
    | some _ => (s, h)
  | HandlerPc.test =>
    if s.frame.empty then (s, { h with pc := HandlerPc.skip })
    else (s, { h with pc := HandlerPc.copy })
  | HandlerPc.skip => ({ s with frame_mutex := none }, { h with pc := HandlerPc.sleep })
  | HandlerPc.copy => (s, { pc := HandlerPc.unlock, temp_frame := s.frame.clone })
  | HandlerPc.unlock => ({ s with frame_mutex := none }, { h with pc := HandlerPc.encode })
  | HandlerPc.encode => (s, { h with pc := HandlerPc.write })
  | HandlerPc.write => (s, { h with pc := HandlerPc.sleep })

/-- One action of the scheduler. -/
def Sys.step (a : Action) (s : Sys) : Sys :=
  match a with
  | Action.connect =>
    { s with handlers := s.handlers ++ [{ pc := HandlerPc.header, temp_frame := { data := [] } }] }
  | Action.producer r => producerStep r s
  | Action.handler i =>
    match s.handlers[i]? with
    | none => s
    | some h =>
      let r := handlerStep i h s
      { r.1 with handlers := r.1.handlers.set i r.2 }

/-- The state after a schedule, from program start. -/
def Sys.run (schedule : List Action) : Sys :=
  schedule.foldl (fun s a => s.step a) Sys.init

/-- The response header the specification asks for, for a boundary token. -/
def specResponseHeader (boundary : List Char) : List Char :=
  "HTTP/1.1 200 OK\r\n".toList
    ++ "Content-Type: multipart/x-mixed-replace; boundary=".toList ++ boundary ++ "\r\n".toList
    ++ "\r\n".toList

/-- The sections the specification asks for over a run of ticks: one per tick whose
cell holds a frame, in tick order. -/
def specSections (boundary : List Char) (imencode : Mat → List Char) (cells : List Globals) :
    List Char :=
  ((cells.filter (fun g => !g.frame.empty)).map
    (fun g => specSection boundary (imencode g.frame))).flatten

/-- The lock discipline: a thread inside the scope of its `lock_guard` owns
`frame_mutex`, and `frame` is being written only while the capture thread is between
the two halves of its assignment. -/
structure Sys.Inv (s : Sys) : Prop where
  producer : s.producerPc.holdsMutex = true → s.frame_mutex = some 0
  handler : ∀ (i : Nat) (h : HandlerThread), s.handlers[i]? = some h →
    h.pc.holdsMutex = true → s.frame_mutex = some (i + 1)
  writing : s.writing = true → s.producerPc = ProducerPc.assignEnd

/-! ## Lemmas -/

theorem Mat.clone_eq (m : Mat) : m.clone = m := rfl

theorem whileTrue_next {ι σ : Type} (body : ι → σ → Flow × σ)
    (h : ∀ i s, (body i s).1 = Flow.next) (xs : List ι) (s : σ) :
    whileTrue body xs s = (false, xs.foldl (fun t i => (body i t).2) s) := by
  induction xs generalizing s with
  | nil => rfl
  | cons i rest ih =>
    have hi := h i s
    cases hb : body i s with
    | mk f t =>
      rw [hb] at hi
      simp only at hi
      subst hi
      simp only [whileTrue, hb, List.foldl_cons]
      exact ih t

theorem captureFramesIter_flow (r : ReadResult) (g : Globals) :
    (captureFramesIter r g).1 = Flow.next := by
  unfold captureFramesIter
  split <;> rfl

theorem captureFrames_eq (reads : List ReadResult) (g : Globals) :
    captureFrames reads g = (false, reads.foldl (fun t r => (captureFramesIter r t).2) g) :=
  whileTrue_next captureFramesIter captureFramesIter_flow reads g

theorem captureFrames_cons (r : ReadResult) (reads : List ReadResult) (g : Globals) :
    (captureFrames (r :: reads) g).2 = (captureFrames reads (captureFramesIter r g).2).2 := by
  simp [captureFrames_eq]

theorem captureFrames_append (xs ys : List ReadResult) (g : Globals) :
    (captureFrames (xs ++ ys) g).2 = (captureFrames ys (captureFrames xs g).2).2 := by
  simp [captureFrames_eq]

theorem videoStreamHandlerIter_flow (imencode : Mat → List Char) (g : Globals) (s : Session) :
    (videoStreamHandlerIter imencode g s).1 = Flow.next := by
  unfold videoStreamHandlerIter
  split <;> rfl

theorem videoStreamHandler_eq (imencode : Mat → List Char) (cells : List Globals)
    (conn : mg_connection) :
    videoStreamHandler imencode cells conn =
      (none, cells.foldl (fun t g => (videoStreamHandlerIter imencode g t).2.2)
        { conn := (mg_printf conn responseHeader).2, sleeps := [] }) := by
  have h := whileTrue_next
    (fun g s => ((videoStreamHandlerIter imencode g s).1,
      (videoStreamHandlerIter imencode g s).2.2))
    (fun g s => videoStreamHandlerIter_flow imencode g s) cells
    { conn := (mg_printf conn responseHeader).2, sleeps := [] }
  simp only [videoStreamHandler, h]
  rfl

theorem mg_write_open (conn : mg_connection) (buf : List Char) (h : conn.closed = false) :
    (mg_write conn buf).2 = { closed := false, sent := conn.sent ++ buf } := by
  cases conn with
  | mk c t =>
    simp only at h
    subst h
    rfl

theorem mg_write_closed (conn : mg_connection) (buf : List Char) (h : conn.closed = true) :
    mg_write conn buf = (-1, conn) := by
  simp [mg_write, h]

theorem iter_empty (imencode : Mat → List Char) (g : Globals) (s : Session)
    (h : g.frame.empty = true) :
    videoStreamHandlerIter imencode g s = (Flow.next, g, { s with sleeps := s.sleeps ++ [50] }) := by
  simp [videoStreamHandlerIter, readCurrent, h]

theorem iter_frame (imencode : Mat → List Char) (g : Globals) (s : Session)
    (h : g.frame.empty = false) (hc : s.conn.closed = false) :
    videoStreamHandlerIter imencode g s =
      (Flow.next, g,
        { conn := { closed := false,
                    sent := s.conn.sent ++ partHeader (imencode g.frame).length
                      ++ imencode g.frame ++ "\r\n".toList },
          sleeps := s.sleeps ++ [50] }) := by
  simp [videoStreamHandlerIter, readCurrent, h, mg_printf, mg_write_open, hc, Mat.clone_eq]

theorem partHeader_eq (body : List Char) :
    partHeader body.length ++ body ++ "\r\n".toList = specSection "frame".toList body := by
  simp only [partHeader, specSection, List.append_assoc]
  rfl

theorem specSections_cons_empty (b : List Char) (imencode : Mat → List Char) (g : Globals)
    (cells : List Globals) (h : g.frame.empty = true) :
    specSections b imencode (g :: cells) = specSections b imencode cells := by
  simp [specSections, h]

theorem specSections_cons_frame (b : List Char) (imencode : Mat → List Char) (g : Globals)
    (cells : List Globals) (h : g.frame.empty = false) :
    specSections b imencode (g :: cells) =
      specSection b (imencode g.frame) ++ specSections b imencode cells := by
  simp [specSections, h]

theorem ticks_open (imencode : Mat → List Char) (cells : List Globals) (s : Session)
    (hc : s.conn.closed = false) :
    cells.foldl (fun t g => (videoStreamHandlerIter imencode g t).2.2) s =
      { conn := { closed := false,
                  sent := s.conn.sent ++ specSections "frame".toList imencode cells },
        sleeps := s.sleeps ++ List.replicate cells.length 50 } := by
  induction cells generalizing s with
  | nil =>
    cases s with
    | mk c sl =>
      cases c with
      | mk cl st =>
        simp only at hc
        subst hc
        simp [specSections]
  | cons g rest ih =>
    rw [List.foldl_cons]
    cases hg : g.frame.empty with
    | true =>
      rw [iter_empty imencode g s hg, specSections_cons_empty _ _ _ _ hg]
      simp only []
      rw [ih _ (by simpa using hc)]
      simp [List.replicate_succ]
    | false =>
      rw [iter_frame imencode g s hg hc, specSections_cons_frame _ _ _ _ hg]
      simp only []
      rw [ih _ (by simp)]
      simp [List.replicate_succ, specSection, partHeader, List.append_assoc]

theorem ticks_closed (imencode : Mat → List Char) (cells : List Globals) (s : Session)
    (hc : s.conn.closed = true) :
    cells.foldl (fun t g => (videoStreamHandlerIter imencode g t).2.2) s =
      { conn := s.conn, sleeps := s.sleeps ++ List.replicate cells.length 50 } := by
  induction cells generalizing s with
  | nil => simp
  | cons g rest ih =>
    rw [List.foldl_cons]
    have hstep : (videoStreamHandlerIter imencode g s).2.2 =
        { conn := s.conn, sleeps := s.sleeps ++ [50] } := by
      unfold videoStreamHandlerIter
      split
      · rfl
      · simp [mg_printf, mg_write_closed, hc]
    rw [hstep, ih _ (by simpa using hc)]
    simp [List.replicate_succ]

theorem captureFrames_keeps_frame (reads : List ReadResult) (g : Globals)
    (hw : reads.all ReadResult.wellFormed = true) (hg : g.frame.empty = false) :
    (captureFrames reads g).2.frame.empty = false := by
  induction reads generalizing g with
  | nil => simpa [captureFrames_eq] using hg
  | cons r rest ih =>
    rw [captureFrames_cons]
    simp only [List.all_cons, Bool.and_eq_true] at hw
    apply ih _ hw.2
    unfold captureFramesIter
    split
    · rename_i hok
      have := hw.1
      simp only [ReadResult.wellFormed, hok, Bool.not_true, Bool.false_or,
        Bool.not_eq_true'] at this
      simpa [publish, Mat.clone_eq] using this
    · exact hg

theorem captureFrames_failed (fails : List ReadResult) (g : Globals)
    (h : fails.all (fun r => !r.ok) = true) :
    (captureFrames fails g).2 =
      { frame := g.frame,
        cerr := g.cerr ++ List.replicate fails.length "Failed to capture frame" } := by
  induction fails generalizing g with
  | nil => simp [captureFrames_eq]
  | cons r rest ih =>
    simp only [List.all_cons, Bool.and_eq_true, Bool.not_eq_true'] at h
    rw [captureFrames_cons]
    have hstep : (captureFramesIter r g).2 =
        { frame := g.frame, cerr := g.cerr ++ ["Failed to capture frame"] } := by
      simp [captureFramesIter, h.1]
    rw [hstep, ih _ (by simpa using h.2)]
    simp [List.replicate_succ]

theorem runCellOps_read (before after : List CellOp) (g : Globals)
    (h : publishesFrames before = true) :
    (runCellOps (before ++ CellOp.read :: after) g).2.get? (countReads before) =
      some ((lastPublished before).map some |>.getD (readCurrent g)) := by
  induction before generalizing g with
  | nil => simp [runCellOps, countReads, lastPublished]
  | cons op ops ih =>
    cases op with
    | publish p =>
      simp only [publishesFrames, Bool.and_eq_true, Bool.not_eq_true'] at h
      simp only [List.cons_append, runCellOps, countReads, lastPublished, List.append_eq]
      rw [ih _ h.2]
      cases lastPublished ops with
      | none => simp [readCurrent, publish, Mat.clone_eq, h.1]
      | some q => simp
    | read =>
      simp only [publishesFrames] at h
      simp only [List.cons_append, runCellOps, countReads, lastPublished, List.get?_cons_succ,
        List.append_eq]
      exact ih _ h

theorem runCellOps_frame (ops : List CellOp) (g : Globals) :
    (runCellOps ops g).1.frame = (lastPublished ops).getD g.frame := by
  induction ops generalizing g with
  | nil => rfl
  | cons op rest ih =>
    cases op with
    | publish p =>
      simp only [runCellOps, lastPublished, Option.getD_some]
      rw [ih]
      cases lastPublished rest <;> simp [publish, Mat.clone_eq]
    | read =>
      simp only [runCellOps, lastPublished]
      exact ih g


theorem expect_append (p r : List Char) : expect p (p ++ r) = some r := by
  induction p with
  | nil => cases r <;> rfl
  | cons c p ih => simp [expect, ih]

theorem expect_crlf_ne (c : Char) (rest : List Char) (h : c ≠ '\r') :
    expect "\r\n".toList (c :: rest) = none := by
  have : "\r\n".toList = ['\r', '\n'] := rfl
  rw [this]
  simp [expect, Ne.symm h]

theorem readLine_line (line rest : List Char) (h : ∀ c ∈ line, c ≠ '\r') :
    readLine (line ++ "\r\n".toList ++ rest) = some (line, rest) := by
  induction line with
  | nil =>
    have : ([] : List Char) ++ "\r\n".toList ++ rest = '\r' :: '\n' :: rest := rfl
    rw [this]
    simp [readLine, expect]
  | cons c line ih =>
    have hc : c ≠ '\r' := h c (by simp)
    have ht : ∀ d ∈ line, d ≠ '\r' := fun d hd => h d (by simp [hd])
    simp only [List.cons_append, readLine, expect_crlf_ne c _ hc, List.append_eq]
    rw [ih ht]
    rfl

theorem digitChar_spec : ∀ d, d < 10 →
    (Nat.digitChar d).isDigit = true ∧ (Nat.digitChar d).toNat - 48 = d := by
  decide

theorem isDigit_ne_cr (c : Char) (h : c.isDigit = true) : c ≠ '\r' := by
  intro hc
  subst hc
  exact absurd h (by decide)

theorem toDigitsCore_spec (fuel : Nat) : ∀ (n : Nat) (ds : List Char), n < fuel →
    ∃ l, Nat.toDigitsCore 10 fuel n ds = l ++ ds ∧ l ≠ [] ∧ l.all Char.isDigit = true
      ∧ digitsValue 0 l = n := by
  induction fuel with
  | zero => intro n ds h; omega
  | succ fuel ih =>
    intro n ds h
    have hd := digitChar_spec (n % 10) (Nat.mod_lt _ (by decide))
    simp only [Nat.toDigitsCore]
    by_cases h0 : n / 10 = 0
    · refine ⟨[Nat.digitChar (n % 10)], ?_, by simp, by simp [hd.1], ?_⟩
      · simp [h0]
      · simp only [digitsValue, List.foldl_cons, List.foldl_nil, hd.2]
        omega
    · obtain ⟨l, hl, hne, hall, hval⟩ := ih (n / 10) (Nat.digitChar (n % 10) :: ds) (by omega)
      refine ⟨l ++ [Nat.digitChar (n % 10)], ?_, by simp, ?_, ?_⟩
      · simp [h0, hl]
      · simp [hall, hd.1]
      · unfold digitsValue at hval
        simp only [digitsValue, List.foldl_append, List.foldl_cons, List.foldl_nil, hval, hd.2]
        omega

theorem fmt_zu_spec (n : Nat) :
    fmt_zu n ≠ [] ∧ (fmt_zu n).all Char.isDigit = true ∧ decimalValue (fmt_zu n) = some n := by
  obtain ⟨l, hl, hne, hall, hval⟩ := toDigitsCore_spec (n + 1) n [] (by omega)
  have e : fmt_zu n = l := by simpa [fmt_zu, Nat.toDigits] using hl
  rw [e]
  refine ⟨hne, hall, ?_⟩
  unfold decimalValue
  have : l.isEmpty = false := by cases l <;> simp_all
  simp only [this, hall, Bool.not_true, Bool.or_self, Bool.false_eq_true, ↓reduceIte]
  exact congrArg some hval

theorem readHeaders_blank (fuel : Nat) (rest : List Char) :
    readHeaders (fuel + 1) ("\r\n".toList ++ rest) = some ([], rest) := by
  have h := readLine_line [] rest (by simp)
  simp only [List.nil_append] at h
  simp only [readHeaders, h]

theorem readHeaders_line (fuel : Nat) (c : Char) (line rest : List Char)
    (h : ∀ d ∈ c :: line, d ≠ '\r') :
    readHeaders (fuel + 1) (c :: line ++ "\r\n".toList ++ rest) =
      (readHeaders fuel rest).map (fun p => ((c :: line) :: p.1, p.2)) := by
  simp only [readHeaders, readLine_line (c :: line) rest h]

set_option maxRecDepth 100000 in
theorem readHeaders_part (fuel : Nat) (ds rest : List Char) (hd : ds.all Char.isDigit = true) :
    readHeaders (fuel + 3)
        ("Content-Type: image/jpeg".toList ++ "\r\n".toList
          ++ (("Content-Length: ".toList ++ ds) ++ "\r\n".toList ++ ("\r\n".toList ++ rest)))
      = some (["Content-Type: image/jpeg".toList, "Content-Length: ".toList ++ ds], rest) := by
  have h1 : ∀ d ∈ "Content-Type: image/jpeg".toList, d ≠ '\r' := by decide
  have h0 : ∀ d ∈ "Content-Length: ".toList, d ≠ '\r' := by decide
  have h2 : ∀ d ∈ "Content-Length: ".toList ++ ds, d ≠ '\r' := by
    intro d hm
    rcases List.mem_append.1 hm with hm | hm
    · exact h0 d hm
    · exact isDigit_ne_cr d (List.all_eq_true.1 hd d hm)
  have e1 : "Content-Type: image/jpeg".toList = 'C' :: "ontent-Type: image/jpeg".toList := rfl
  have e2 : "Content-Length: ".toList ++ ds = 'C' :: ("ontent-Length: ".toList ++ ds) := rfl
  rw [e1] at h1 ⊢
  rw [e2] at h2 ⊢
  rw [readHeaders_line (fuel + 2) _ _ _ h1, readHeaders_line (fuel + 1) _ _ _ h2,
    readHeaders_blank]
  rfl

set_option maxRecDepth 100000 in
theorem contentLength_part (ds : List Char) :
    contentLength ["Content-Type: image/jpeg".toList, "Content-Length: ".toList ++ ds]
      = decimalValue ds := by
  have h1 : expect "Content-Length: ".toList "Content-Type: image/jpeg".toList = none := by
    decide
  simp only [contentLength, List.findSome?, h1, expect_append, Option.some_bind]

theorem readPart_section (boundary body rest : List Char) :
    readPart boundary (specSection boundary body ++ rest) = some (body, rest) := by
  have e : specSection boundary body ++ rest =
      ("--".toList ++ boundary ++ "\r\n".toList)
        ++ ("Content-Type: image/jpeg".toList ++ "\r\n".toList
          ++ (("Content-Length: ".toList ++ fmt_zu body.length) ++ "\r\n".toList
            ++ ("\r\n".toList ++ (body ++ ("\r\n".toList ++ rest))))) := by
    simp only [specSection, List.append_assoc]
  obtain ⟨hne, hall, hval⟩ := fmt_zu_spec body.length
  obtain ⟨k, hk⟩ : ∃ k, ("Content-Type: image/jpeg".toList ++ "\r\n".toList
          ++ (("Content-Length: ".toList ++ fmt_zu body.length) ++ "\r\n".toList
            ++ ("\r\n".toList ++ (body ++ ("\r\n".toList ++ rest))))).length = k + 3 := by
    refine ⟨_, (Nat.sub_add_cancel ?_).symm⟩
    simp only [List.length_append]
    have : 2 ≤ "\r\n".toList.length := by decide
    omega
  rw [e]
  unfold readPart
  simp only [expect_append]
  rw [hk, readHeaders_part k _ _ hall]
  simp only [contentLength_part, hval, List.length_append, List.drop_left, List.take_left,
    expect_append, Option.map_some']
  split
  · omega
  · rfl

theorem specSection_ne_nil (boundary body rest : List Char) :
    ∃ c t, specSection boundary body ++ rest = c :: t := by
  simp only [specSection, List.append_assoc]
  exact ⟨'-', _, rfl⟩

theorem readParts_sections (boundary : List Char) (bodies : List (List Char)) (k : Nat) :
    readParts boundary (bodies.length + k)
      (bodies.map (specSection boundary)).flatten = some bodies := by
  induction bodies with
  | nil =>
    cases k <;> rfl
  | cons b rest ih =>
    obtain ⟨c, t, hct⟩ := specSection_ne_nil boundary b (rest.map (specSection boundary)).flatten
    have hlen : (b :: rest).length + k = (rest.length + k) + 1 := by
      simp only [List.length_cons]
      omega
    rw [List.map_cons, List.flatten_cons, hlen, hct]
    simp only [readParts]
    rw [← hct, readPart_section]
    simp only [ih, Option.map_some']

theorem length_le_flatten (boundary : List Char) (bodies : List (List Char)) :
    bodies.length ≤ (bodies.map (specSection boundary)).flatten.length := by
  induction bodies with
  | nil => simp
  | cons b rest ih =>
    obtain ⟨c, t, hct⟩ := specSection_ne_nil boundary b []
    simp only [List.append_nil] at hct
    simp only [List.map_cons, List.flatten_cons, List.length_append, List.length_cons, hct]
    omega

theorem multipartReader_sections (boundary : List Char) (bodies : List (List Char)) :
    multipartReader boundary (bodies.map (specSection boundary)).flatten = some bodies := by
  unfold multipartReader
  obtain ⟨k, hk⟩ := Nat.exists_eq_add_of_le (length_le_flatten boundary bodies)
  rw [hk]
  exact readParts_sections boundary bodies k

/-! ### The lock discipline -/

theorem Sys.inv_init : Sys.init.Inv where
  producer := by simp [Sys.init, ProducerPc.holdsMutex]
  handler := by simp [Sys.init]
  writing := by simp [Sys.init]

theorem handlerStep_cases (i : Nat) (h : HandlerThread) (s : Sys) :
    (handlerStep i h s).1.handlers = s.handlers
      ∧ (handlerStep i h s).1.writing = s.writing
      ∧ (handlerStep i h s).1.producerPc = s.producerPc
      ∧ (((handlerStep i h s).1.frame_mutex = s.frame_mutex
            ∧ (handlerStep i h s).2.pc.holdsMutex = h.pc.holdsMutex)
        ∨ (s.frame_mutex = none ∧ (handlerStep i h s).1.frame_mutex = some (i + 1)
            ∧ (handlerStep i h s).2.pc.holdsMutex = true)
        ∨ (h.pc.holdsMutex = true ∧ (handlerStep i h s).1.frame_mutex = none
            ∧ (handlerStep i h s).2.pc.holdsMutex = false)) := by
  cases h with
  | mk pc t =>
    cases pc <;> simp only [handlerStep] <;> (try split) <;>
      simp_all [HandlerPc.holdsMutex]

theorem producerStep_cases (r : ReadResult) (s : Sys) :
    (producerStep r s).handlers = s.handlers
      ∧ ((s.writing = true → s.producerPc = ProducerPc.assignEnd) →
          (producerStep r s).writing = true → (producerStep r s).producerPc = ProducerPc.assignEnd)
      ∧ (((producerStep r s).frame_mutex = s.frame_mutex
            ∧ (producerStep r s).producerPc.holdsMutex = s.producerPc.holdsMutex)
        ∨ (s.frame_mutex = none ∧ (producerStep r s).frame_mutex = some 0
            ∧ (producerStep r s).producerPc.holdsMutex = true)
        ∨ (s.producerPc.holdsMutex = true ∧ (producerStep r s).frame_mutex = none
            ∧ (producerStep r s).producerPc.holdsMutex = false)) := by
  cases s with
  | mk m f w pc t hs =>
    cases pc <;> simp only [producerStep] <;> (try split) <;>
      simp_all [ProducerPc.holdsMutex]

theorem Sys.inv_step (a : Action) (s : Sys) (hs : s.Inv) : (s.step a).Inv := by
  cases a with
  | connect =>
    refine ⟨hs.producer, ?_, hs.writing⟩
    intro i h hi hh
    simp only [Sys.step] at hi
    by_cases hlt : i < s.handlers.length
    · rw [List.getElem?_append_left hlt] at hi
      exact hs.handler i h hi hh
    · rw [List.getElem?_append_right (by omega)] at hi
      cases hk : i - s.handlers.length with
      | zero =>
        rw [hk] at hi
        simp only [List.getElem?_cons_zero, Option.some.injEq] at hi
        subst hi
        simp [HandlerPc.holdsMutex] at hh
      | succ k =>
        rw [hk] at hi
        simp at hi
  | producer r =>
    obtain ⟨e1, e2, e3⟩ := producerStep_cases r s
    have hnone : s.frame_mutex = none → ∀ (i : Nat) (h : HandlerThread),
        s.handlers[i]? = some h → h.pc.holdsMutex = false := by
      intro hm i h hi
      cases hh : h.pc.holdsMutex with
      | false => rfl
      | true =>
        have := hs.handler i h hi hh
        rw [hm] at this
        cases this
    refine ⟨?_, ?_, e2 hs.writing⟩
    · intro hp
      simp only [Sys.step] at hp ⊢
      rcases e3 with ⟨em, eh⟩ | ⟨_, em, _⟩ | ⟨_, _, eh⟩
      · rw [em]
        exact hs.producer (eh ▸ hp)
      · exact em
      · rw [eh] at hp
        cases hp
    · intro i h hi hh
      simp only [Sys.step] at hi ⊢
      rw [e1] at hi
      rcases e3 with ⟨em, _⟩ | ⟨hm, _, _⟩ | ⟨hp, _, _⟩
      · rw [em]
        exact hs.handler i h hi hh
      · rw [hnone hm i h hi] at hh
        cases hh
      · have h0 := hs.producer hp
        have h1 := hs.handler i h hi hh
        rw [h0] at h1
        simp at h1
  | handler i =>
    simp only [Sys.step]
    cases hi : s.handlers[i]? with
    | none => exact hs
    | some h =>
      simp only []
      obtain ⟨e1, e2, e3, e4⟩ := handlerStep_cases i h s
      have hlt : i < s.handlers.length := by
        rcases Nat.lt_or_ge i s.handlers.length with hl | hl
        · exact hl
        · rw [List.getElem?_eq_none hl] at hi
          cases hi
      have hget : ∀ (j : Nat) (x : HandlerThread),
          ((handlerStep i h s).1.handlers.set i (handlerStep i h s).2)[j]? = some x →
          (j = i ∧ x = (handlerStep i h s).2) ∨ (j ≠ i ∧ s.handlers[j]? = some x) := by
        intro j x hx
        rw [e1, List.getElem?_set] at hx
        by_cases hji : i = j
        · subst hji
          simp only [hlt, ↓reduceIte, Option.some.injEq] at hx
          exact Or.inl ⟨rfl, hx.symm⟩
        · simp only [hji, ↓reduceIte] at hx
          exact Or.inr ⟨fun e => hji e.symm, hx⟩
      refine ⟨?_, ?_, ?_⟩
      · intro hp
        simp only [e3] at hp
        have h0 := hs.producer hp
        rcases e4 with ⟨em, _⟩ | ⟨hm, _, _⟩ | ⟨hh, _, _⟩
        · simp only [em]
          exact h0
        · rw [hm] at h0
          cases h0
        · have h1 := hs.handler i h hi hh
          rw [h0] at h1
          simp at h1
      · intro j x hx hh
        simp only []
        rcases hget j x hx with ⟨hj, hxe⟩ | ⟨hj, hxe⟩
        · subst hj
          subst hxe
          rcases e4 with ⟨em, eh⟩ | ⟨_, em, _⟩ | ⟨_, _, eh⟩
          · rw [em]
            exact hs.handler j h hi (eh ▸ hh)
          · exact em
          · rw [eh] at hh
            cases hh
        · have h1 := hs.handler j x hxe hh
          rcases e4 with ⟨em, _⟩ | ⟨hm, _, _⟩ | ⟨hh2, _, _⟩
          · rw [em]
            exact h1
          · rw [hm] at h1
            cases h1
          · have h2 := hs.handler i h hi hh2
            rw [h1] at h2
            simp only [Option.some.injEq, Nat.add_right_cancel_iff] at h2
            exact absurd h2 hj
      · intro hw
        simp only [e2] at hw
        simp only [e3]
        exact hs.writing hw

theorem Sys.inv_foldl (schedule : List Action) (s : Sys) (hs : s.Inv) :
    (schedule.foldl (fun t a => t.step a) s).Inv := by
  induction schedule generalizing s with
  | nil => exact hs
  | cons a rest ih => exact ih _ (Sys.inv_step a s hs)

theorem Sys.inv_run (schedule : List Action) : (Sys.run schedule).Inv :=
  Sys.inv_foldl schedule Sys.init Sys.inv_init

theorem handler_holds_of_accesses (pc : HandlerPc) (h : pc.accessesFrame = true) :
    pc.holdsMutex = true := by
  cases pc <;> simp_all [HandlerPc.accessesFrame, HandlerPc.holdsMutex]

theorem producer_holds_of_accesses (pc : ProducerPc) (h : pc.accessesFrame = true) :
    pc.holdsMutex = true := by
  cases pc <;> simp_all [ProducerPc.accessesFrame, ProducerPc.holdsMutex]

theorem videoStreamHandler_sent (imencode : Mat → List Char) (cells : List Globals)
    (conn : mg_connection) (h : conn.closed = false) :
    (videoStreamHandler imencode cells conn).2.conn.sent
      = conn.sent ++ specResponseHeader "frame".toList
          ++ specSections "frame".toList imencode cells := by
  rw [videoStreamHandler_eq, ticks_open _ _ _ (by simp [mg_printf, mg_write_open, h])]
  simp [mg_printf, mg_write_open, h, responseHeader, specResponseHeader]

/-! ## The claims -/

/-- C1: the section written by one iteration of `videoStreamHandler` for a frame is
the part header with the decimal digits of the number of encoded bytes as
`Content-Length`, the blank line, those bytes and a CRLF, and the digits read back as
that number, whatever the codec returned (nothing included); so the reader that
trusts `Content-Length` gets back, from any sequence of such sections, exactly the
bodies, whatever bytes they hold, and from what a run of the handler wrote after the
response header exactly the encoded frames of the ticks that had one. -/
theorem section_content_length_roundtrip (imencode : Mat → List Char) (g : Globals)
    (s : Session) (cells : List Globals) (conn : mg_connection) (bodies : List (List Char))
    (hg : g.frame.empty = false) (hs : s.conn.closed = false) (hc : conn.closed = false) :
    (videoStreamHandlerIter imencode g s).2.2.conn.sent
        = s.conn.sent
          ++ ("--frame\r\nContent-Type: image/jpeg\r\nContent-Length: ".toList
            ++ fmt_zu (imencode g.frame).length ++ "\r\n\r\n".toList)
          ++ imencode g.frame ++ "\r\n".toList
      ∧ decimalValue (fmt_zu (imencode g.frame).length) = some (imencode g.frame).length
      ∧ multipartReader "frame".toList
          (bodies.map (fun b => partHeader b.length ++ b ++ "\r\n".toList)).flatten
        = some bodies
      ∧ ∃ payload,
          (videoStreamHandler imencode cells conn).2.conn.sent
            = conn.sent ++ responseHeader ++ payload
          ∧ multipartReader "frame".toList payload
            = some ((cells.filter (fun c => !c.frame.empty)).map (fun c => imencode c.frame)) := by
  refine ⟨?_, (fmt_zu_spec _).2.2, ?_, specSections "frame".toList imencode cells, ?_, ?_⟩
  · rw [iter_frame imencode g s hg hs]
    rfl
  · have e : (fun b => partHeader b.length ++ b ++ "\r\n".toList)
        = specSection "frame".toList := funext partHeader_eq
    rw [e]
    exact multipartReader_sections _ bodies
  · rw [videoStreamHandler_sent imencode cells conn hc]
    rfl
  · have e : specSections "frame".toList imencode cells
        = (((cells.filter (fun c => !c.frame.empty)).map (fun c => imencode c.frame)).map
            (specSection "frame".toList)).flatten := by
      simp [specSections, List.map_map, Function.comp_def]
    rw [e]
    exact multipartReader_sections _ _

theorem section_content_length_roundtrip_witness :
    multipartReader "frame".toList
        (["ab--frame\r\n".toList, [], "--frame".toList].map
          (fun b => partHeader b.length ++ b ++ "\r\n".toList)).flatten
      = some ["ab--frame\r\n".toList, [], "--frame".toList] :=
  (section_content_length_roundtrip (fun _ => "--frame".toList)
    { frame := { data := [1] }, cerr := [] }
    { conn := { closed := false, sent := [] }, sleeps := [] }
    [Globals.init, { frame := { data := [1] }, cerr := [] }]
    { closed := false, sent := [] }
    ["ab--frame\r\n".toList, [], "--frame".toList] rfl rfl rfl).2.2.1

/-- C2: an iteration of the loop of `videoStreamHandler` that finds the cell empty
writes nothing, leaves the cell and the connection as they were and only sleeps its
50 ms; the iteration after it sleeps the same 50 ms; and however many empty ticks
come before the first tick with a frame, the connection ends up exactly as if there
had been none. -/
theorem empty_tick_writes_nothing (imencode : Mat → List Char) (g g1 g2 : Globals)
    (s : Session) (empties : List Globals) (conn : mg_connection)
    (h : g.frame.empty = true) (hs : empties.all (fun e => e.frame.empty) = true) :
    videoStreamHandlerIter imencode g s
        = (Flow.next, g, { conn := s.conn, sleeps := s.sleeps ++ [50] })
      ∧ (videoStreamHandlerIter imencode g2 (videoStreamHandlerIter imencode g s).2.2).2.2.sleeps
        = s.sleeps ++ [50, 50]
      ∧ (videoStreamHandler imencode (empties ++ [g1]) conn).2.conn
        = (videoStreamHandler imencode [g1] conn).2.conn
      ∧ (videoStreamHandler imencode (empties ++ [g1]) conn).2.sleeps
        = List.replicate (empties.length + 1) 50 := by
  have hk : ∀ (es : List Globals) (t : Session), es.all (fun e => e.frame.empty) = true →
      es.foldl (fun t g => (videoStreamHandlerIter imencode g t).2.2) t =
        { conn := t.conn, sleeps := t.sleeps ++ List.replicate es.length 50 } := by
    intro es
    induction es with
    | nil => intro t _; simp
    | cons e rest ih =>
      intro t ht
      simp only [List.all_cons, Bool.and_eq_true] at ht
      rw [List.foldl_cons, iter_empty imencode e t ht.1]
      simp only []
      rw [ih _ ht.2]
      simp [List.replicate_succ]
  have hsl : ∀ (x : Globals) (t : Session),
      (videoStreamHandlerIter imencode x t).2.2.sleeps = t.sleeps ++ [50] := by
    intro x t
    unfold videoStreamHandlerIter
    split <;> rfl
  refine ⟨iter_empty imencode g s h, ?_, ?_, ?_⟩
  · rw [hsl, iter_empty imencode g s h]
    simp
  · simp only [videoStreamHandler_eq, List.foldl_append, List.foldl_cons, List.foldl_nil]
    rw [hk _ _ hs]
    unfold videoStreamHandlerIter
    split <;> rfl
  · simp only [videoStreamHandler_eq, List.foldl_append, List.foldl_cons, List.foldl_nil]
    rw [hsl, hk _ _ hs]
    simp [List.replicate_succ']

theorem empty_tick_writes_nothing_witness :
    (videoStreamHandler (fun m => m.data.map Char.ofNat)
        ([Globals.init, Globals.init] ++ [{ frame := { data := [65] }, cerr := [] }])
        { closed := false, sent := [] }).2.conn
      = (videoStreamHandler (fun m => m.data.map Char.ofNat)
        [{ frame := { data := [65] }, cerr := [] }] { closed := false, sent := [] }).2.conn :=
  (empty_tick_writes_nothing (fun m => m.data.map Char.ofNat) Globals.init
    { frame := { data := [65] }, cerr := [] } Globals.init
    { conn := { closed := false, sent := [] }, sleeps := [] }
    [Globals.init, Globals.init] { closed := false, sent := [] } rfl rfl).2.2.1

/-- C3: an iteration of `captureFrames` whose camera read fails logs the failure and
leaves `frame` as it was; so does any run of failed reads, and a read of the cell
after the run returns what a read before it returned: after F1 was published, F1
before the failures and F1 after them. -/
theorem failed_capture_keeps_cell (g : Globals) (F1 : Mat) (r : ReadResult)
    (fails : List ReadResult) (hr : r.ok = false)
    (h : fails.all (fun x => !x.ok) = true) (hF : F1.empty = false) :
    (captureFramesIter r g).2
        = { frame := g.frame, cerr := g.cerr ++ ["Failed to capture frame"] }
      ∧ (captureFrames fails g).2.frame = g.frame
      ∧ readCurrent (captureFrames fails g).2 = readCurrent g
      ∧ readCurrent (publish F1 g) = some F1
      ∧ readCurrent (captureFrames fails (publish F1 g)).2 = some F1 := by
  have hp : readCurrent (publish F1 g) = some F1 := by
    simp [readCurrent, publish, Mat.clone_eq, hF]
  refine ⟨by simp [captureFramesIter, hr], ?_, ?_, hp, ?_⟩
  · rw [captureFrames_failed fails g h]
  · rw [captureFrames_failed fails g h]
    rfl
  · rw [captureFrames_failed fails _ h, ← hp]
    rfl

theorem failed_capture_keeps_cell_witness :
    readCurrent (captureFrames [{ ok := false, image := { data := [] } },
        { ok := false, image := { data := [] } }]
      (publish { data := [1, 2, 3] } Globals.init)).2 = some { data := [1, 2, 3] } :=
  (failed_capture_keeps_cell Globals.init { data := [1, 2, 3] }
    { ok := false, image := { data := [] } }
    [{ ok := false, image := { data := [] } }, { ok := false, image := { data := [] } }]
    rfl rfl rfl).2.2.2.2

/-- C4: with every locked section one step, and every published matrix a frame, a read
that comes after the history `before` returns nothing when `before` has no publish and
otherwise the frame of its latest publish; and the cell itself holds that one frame and
nothing else. -/
theorem read_returns_latest_publish (before after : List CellOp)
    (h : publishesFrames before = true) :
    (runCellOps (before ++ CellOp.read :: after) Globals.init).2.get? (countReads before)
        = some (lastPublished before)
      ∧ (runCellOps before Globals.init).1.frame
        = (lastPublished before).getD Globals.init.frame := by
  refine ⟨?_, runCellOps_frame before Globals.init⟩
  rw [runCellOps_read before after Globals.init h]
  cases lastPublished before <;> rfl

theorem read_returns_latest_publish_witness :
    (runCellOps ([CellOp.read, CellOp.publish { data := [1] }, CellOp.publish { data := [2] }]
        ++ CellOp.read :: [CellOp.publish { data := [3] }, CellOp.read]) Globals.init).2.get?
        (countReads [CellOp.read, CellOp.publish { data := [1] }, CellOp.publish { data := [2] }])
      = some (lastPublished
        [CellOp.read, CellOp.publish { data := [1] }, CellOp.publish { data := [2] }]) :=
  (read_returns_latest_publish
    [CellOp.read, CellOp.publish { data := [1] }, CellOp.publish { data := [2] }]
    [CellOp.publish { data := [3] }, CellOp.read] rfl).1

/-- C5, on the code: on a connection that is already closed, `videoStreamHandler` has
not returned after any number of iterations; every one of them still sleeps and runs,
with each write refused. -/
theorem videoStreamHandler_closed_never_returns (imencode : Mat → List Char)
    (cells : List Globals) (sent : List Char) :
    (videoStreamHandler imencode cells { closed := true, sent := sent }).1 = none
      ∧ (videoStreamHandler imencode cells { closed := true, sent := sent }).2
        = { conn := { closed := true, sent := sent },
            sleeps := List.replicate cells.length 50 } := by
  rw [videoStreamHandler_eq]
  refine ⟨rfl, ?_⟩
  simp only []
  rw [ticks_closed imencode cells _ (by simp [mg_printf, mg_write_closed])]
  simp [mg_printf, mg_write_closed]

/-- C6: when `camera.isOpened()` is false, `main` writes the error to `std::cerr` and
returns -1, which is not 0, with none of the steps done: no capture thread, no
`mg_start`, no handler for `/video_feed`; when it is true these are the first three
steps. -/
theorem main_camera_not_opened (reads : List ReadResult) (g : Globals) :
    main false reads g
        = (some (-1), [],
            { frame := g.frame, cerr := g.cerr ++ ["Error: Cannot access the camera."] })
      ∧ (-1 : Int) ≠ 0
      ∧ (main true reads g).2.1.take 3
        = [MainStep.startThread "captureFrames",
           MainStep.mg_start ["listening_ports", "5000"],
           MainStep.mg_set_request_handler "/video_feed" "videoStreamHandler"] := by
  refine ⟨rfl, by decide, ?_⟩
  simp [main, captureFrames_eq, mainSteps]

/-- C7: on an open connection the bytes written by `videoStreamHandler` over any run
of ticks are the response header for the boundary token `frame`, once and first,
then for each tick whose cell holds a frame, in tick order, the section of the
specification with the same token around the encoded bytes. -/
theorem videoStreamHandler_response (imencode : Mat → List Char) (cells : List Globals)
    (conn : mg_connection) (h : conn.closed = false) :
    (videoStreamHandler imencode cells conn).2.conn.sent
      = conn.sent ++ specResponseHeader "frame".toList
          ++ specSections "frame".toList imencode cells :=
  videoStreamHandler_sent imencode cells conn h

theorem videoStreamHandler_response_witness :
    (videoStreamHandler (fun m => m.data.map Char.ofNat)
        [Globals.init, { frame := { data := [65, 66] }, cerr := [] }]
        { closed := false, sent := [] }).2.conn.sent
      = [] ++ specResponseHeader "frame".toList
          ++ specSections "frame".toList (fun m => m.data.map Char.ofNat)
            [Globals.init, { frame := { data := [65, 66] }, cerr := [] }] :=
  videoStreamHandler_response (fun m => m.data.map Char.ofNat)
    [Globals.init, { frame := { data := [65, 66] }, cerr := [] }]
    { closed := false, sent := [] } rfl

/-- C9: whatever the camera reads give, `captureFrames` has run one iteration for each
of them and has not returned; so with the camera open `main` completes its steps up to
`mg_stop` but never the join, and returns nothing; `main` returns -1 or not at all,
never 0. -/
theorem captureFrames_never_returns (reads : List ReadResult) (g : Globals)
    (isOpened : Bool) :
    (captureFrames reads g).1 = false
      ∧ (captureFrames reads g).2 = reads.foldl (fun t r => (captureFramesIter r t).2) g
      ∧ (main true reads g).1 = none
      ∧ (main true reads g).2.1 = mainSteps
      ∧ (main isOpened reads g).1 = if isOpened then none else some (-1) := by
  refine ⟨by rw [captureFrames_eq], by rw [captureFrames_eq], ?_, ?_, ?_⟩
  · simp [main, captureFrames_eq]
  · simp [main, captureFrames_eq]
  · cases isOpened <;> simp [main, captureFrames_eq]

/-- C10: once a successful camera read has been published, and the camera keeps its
contract (a successful read gives a non-empty image), the cell holds a frame after any
further reads, successful or failed: a read of it returns that frame, and a tick of a
handler on an open connection writes exactly one section. -/
theorem cell_holds_frame_after_first_capture (imencode : Mat → List Char) (g : Globals)
    (r : ReadResult) (later : List ReadResult) (s : Session)
    (hr : r.ok = true) (hw : (r :: later).all ReadResult.wellFormed = true)
    (hc : s.conn.closed = false) :
    readCurrent (captureFrames (r :: later) g).2
        = some (captureFrames (r :: later) g).2.frame
      ∧ (captureFrames (r :: later) g).2.frame.empty = false
      ∧ (videoStreamHandlerIter imencode (captureFrames (r :: later) g).2 s).2.2.conn.sent
        = s.conn.sent
          ++ specSection "frame".toList (imencode (captureFrames (r :: later) g).2.frame) := by
  have hne : (captureFrames (r :: later) g).2.frame.empty = false := by
    rw [captureFrames_cons]
    simp only [List.all_cons, Bool.and_eq_true] at hw
    apply captureFrames_keeps_frame _ _ hw.2
    have := hw.1
    simp only [ReadResult.wellFormed, hr, Bool.not_true, Bool.false_or,
      Bool.not_eq_true'] at this
    simpa [captureFramesIter, hr, publish, Mat.clone_eq] using this
  refine ⟨by simp [readCurrent, hne, Mat.clone_eq], hne, ?_⟩
  rw [iter_frame imencode _ s hne hc]
  simp [specSection, partHeader, List.append_assoc]

theorem cell_holds_frame_after_first_capture_witness :
    (captureFrames ({ ok := true, image := { data := [7] } } ::
      [{ ok := false, image := { data := [] } }, { ok := true, image := { data := [8, 9] } },
       { ok := false, image := { data := [] } }]) Globals.init).2.frame.empty = false :=
  (cell_holds_frame_after_first_capture (fun m => m.data.map Char.ofNat) Globals.init
    { ok := true, image := { data := [7] } }
    [{ ok := false, image := { data := [] } }, { ok := true, image := { data := [8, 9] } },
     { ok := false, image := { data := [] } }]
    { conn := { closed := false, sent := [] }, sleeps := [] } rfl rfl rfl).2.1

/-- C8: in every state the threads can reach, under any schedule, a handler thread
that stands at a statement reading `frame` owns `frame_mutex`, `frame` is not in the
middle of an assignment, the capture thread is not at its assignment, and any handler
thread at a statement reading `frame` is that same thread; and the capture thread at
its assignment owns `frame_mutex`. -/
theorem frame_access_exclusive (schedule : List Action) (i : Nat) (h : HandlerThread)
    (hi : (Sys.run schedule).handlers[i]? = some h) (ha : h.pc.accessesFrame = true) :
    (Sys.run schedule).frame_mutex = some (i + 1)
      ∧ (Sys.run schedule).writing = false
      ∧ (Sys.run schedule).producerPc.accessesFrame = false
      ∧ (∀ (j : Nat) (x : HandlerThread), (Sys.run schedule).handlers[j]? = some x →
          x.pc.accessesFrame = true → j = i)
      ∧ ∀ (other : List Action), (Sys.run other).producerPc.accessesFrame = true →
          (Sys.run other).frame_mutex = some 0 := by
  have hinv := Sys.inv_run schedule
  have hm := hinv.handler i h hi (handler_holds_of_accesses _ ha)
  have hp : (Sys.run schedule).producerPc.holdsMutex = false := by
    cases hh : (Sys.run schedule).producerPc.holdsMutex with
    | false => rfl
    | true =>
      have := hinv.producer hh
      rw [hm] at this
      simp at this
  refine ⟨hm, ?_, ?_, ?_, ?_⟩
  · cases hw : (Sys.run schedule).writing with
    | false => rfl
    | true =>
      have := hinv.writing hw
      rw [this] at hp
      cases hp
  · cases hh : (Sys.run schedule).producerPc.accessesFrame with
    | false => rfl
    | true =>
      rw [producer_holds_of_accesses _ hh] at hp
      cases hp
  · intro j x hj hx
    have := hinv.handler j x hj (handler_holds_of_accesses _ hx)
    rw [hm] at this
    simpa using this.symm
  · intro other ho
    exact (Sys.inv_run other).producer (producer_holds_of_accesses _ ho)

theorem frame_access_exclusive_witness :
    (Sys.run [Action.connect, Action.producer { ok := true, image := { data := [1, 2] } },
        Action.handler 0, Action.handler 0, Action.handler 0, Action.producer { ok := false, image := { data := [] } }]).frame_mutex = some (0 + 1) :=
  (frame_access_exclusive
    [Action.connect, Action.producer { ok := true, image := { data := [1, 2] } },
      Action.handler 0, Action.handler 0, Action.handler 0, Action.producer { ok := false, image := { data := [] } }]
    0 { pc := HandlerPc.test, temp_frame := { data := [] } } rfl rfl).1

end CameraStreaming
